import Mathlib

/-!
Shallow embedding of the gecko patch-code builder (src/gecko.go) and proofs
about it.  Strings are modelled as lists of characters, bytes as natural
numbers below 256, and the 32/64-bit unsigned arithmetic of the Go code as
natural-number arithmetic with explicit reductions modulo 2 ^ 32 and 2 ^ 64.
External effects (the assembler subprocess, file and directory reads) are
modelled as oracles supplied through an environment structure, and the
filesystem tree handed to the folder-injection routine is an explicit
inductive value.  Fatal `log.Panic` aborts and `os.Exit(1)` aborts are
modelled as two kinds of error value, because the `recover()` in `main`
treats them differently.
-/

set_option maxHeartbeats 1000000

namespace Gecko

/-- Strings from the Go code are modelled as lists of characters. -/
abbrev Str := List Char

/-- Conversion of a Lean string literal into the model representation. -/
def str (s : String) : Str := s.toList

/-- Model of `strings.ToUpper` (the Go code only ever upcases ASCII hex
characters and addresses, where `Char.toUpper` agrees with Go). -/
def toUpperStr (s : Str) : Str := s.map Char.toUpper

/-- The last `k` characters of a string, as in Go `s[len(s)-k:]`. -/
def lastN (k : Nat) (s : Str) : Str := s.drop (s.length - k)

/-- Left padding with a character up to width `w`, as done by a
`%0wX` format verb for a string shorter than `w`. -/
def leftPad (c : Char) (w : Nat) (s : Str) : Str :=
  List.replicate (w - s.length) c ++ s

/-- Value of one hexadecimal character, as in Go `encoding/hex.fromHexChar`:
`some v` for `0-9a-fA-F`, `none` otherwise. -/
def hexDigitVal (c : Char) : Option Nat :=
  if ('0' ≤ c ∧ c ≤ '9') then some (c.toNat - 48)
  else if ('a' ≤ c ∧ c ≤ 'f') then some (c.toNat - 87)
  else if ('A' ≤ c ∧ c ≤ 'F') then some (c.toNat - 55)
  else none

/-- Model of `hex.DecodeString`: succeeds exactly on even-length strings of
hexadecimal characters, producing one byte per character pair. -/
def hexDecode : Str → Option (List Nat)
  | [] => some []
  | [_] => none
  | c1 :: c2 :: rest =>
    match hexDigitVal c1, hexDigitVal c2, hexDecode rest with
    | some h, some l, some bs => some ((16 * h + l) :: bs)
    | _, _, _ => none

/-- Lowercase hexadecimal character for a digit value below 16. -/
def hexDigitLower (d : Nat) : Char :=
  if d < 10 then Char.ofNat (48 + d) else Char.ofNat (87 + d)

/-- Uppercase hexadecimal character for a digit value below 16; used by the
`%X` format verb. -/
def hexDigitUpper (d : Nat) : Char :=
  if d < 10 then Char.ofNat (48 + d) else Char.ofNat (55 + d)

/-- Model of `hex.EncodeToString`: two lowercase hex characters per byte. -/
def hexEncode (bytes : List Nat) : Str :=
  bytes.flatMap (fun b => [hexDigitLower (b / 16 % 16), hexDigitLower (b % 16)])

/-- Fuel-driven big-endian hexadecimal printer, mirroring the structure of
the core `Nat.toDigitsCore` used by formatted printing; the fuel is always
sufficient because it starts at `n + 1`. -/
def natHexStrAux : Nat → Nat → Str → Str
  | 0, _, acc => acc
  | fuel + 1, n, acc =>
    if n / 16 = 0 then hexDigitUpper (n % 16) :: acc
    else natHexStrAux fuel (n / 16) (hexDigitUpper (n % 16) :: acc)

/-- Model of `fmt.Sprintf("%X", n)`: uppercase hex, no leading zeros,
printing `0` as a single character. -/
def sprintfHexUpper (n : Nat) : Str := natHexStrAux (n + 1) n []

/-- Model of `fmt.Sprintf("%0wX", n)`: uppercase hex left-padded with zeros
to a minimum width of `w`. -/
def sprintfHexPad (w n : Nat) : Str := leftPad '0' w (sprintfHexUpper n)

/-- The digit loop of `strconv.ParseUint(s, 16, 32)`.  Go scans the string
left to right: a non-hex character returns `(0, ErrSyntax)` immediately, and
a digit that pushes the accumulator past `2 ^ 32 - 1` returns
`(2 ^ 32 - 1, ErrRange)` immediately, without looking at any later
character — so which of the two failure values is returned depends on which
condition the scan reaches first. -/
def parseUintHex32Loop : Nat → Str → Nat × Bool
  | n, [] => (n, true)
  | n, c :: rest =>
    match hexDigitVal c with
    | none => (0, false)
    | some d =>
      if 2 ^ 32 - 1 < n * 16 + d then (2 ^ 32 - 1, false)
      else parseUintHex32Loop (n * 16 + d) rest

/-- Model of `strconv.ParseUint(s, 16, 32)`: the empty string is a syntax
error, otherwise the left-to-right digit scan above.  Returns the value and a
success flag (Go returns `err == nil` as the flag). -/
def parseUintHex32 (s : Str) : Nat × Bool :=
  if s.length = 0 then (0, false) else parseUintHex32Loop 0 s

/-- Model of `filepath.Ext`: the suffix of the name starting at the final
dot, or the empty string when the name has no dot. -/
def fileExt (name : Str) : Str :=
  if name.reverse.any (fun c => c = '.')
  then '.' :: (name.reverse.takeWhile (fun c => ¬ c = '.')).reverse
  else []

/-- Model of `filepath.Join folder name` for a clean folder path and a plain
base name. -/
def pathJoin (folder name : Str) : Str := folder ++ '/' :: name

/-! ### Error model

`log.Panic` / `log.Panicf` calls and runtime panics raise a Go panic, which
the deferred `recover()` in `main` swallows; the compile failure paths call
`os.Exit(1)` instead, which bypasses the recovery.  The two channels are kept
apart. -/

/-- The fatal conditions raised as Go panics by the code, carrying the data
that appears in the diagnostic message. -/
inductive GeckoErr where
  /-- `generateBranchCodeLine`: "Failed to parse address or target address." -/
  | parseAddressError
  /-- `generateInjectionCodeLines`: "Did not find any code in file: ..." -/
  | noCodeError (file : Str)
  /-- `generateInjectionFolderLines`: a file does not carry a 4-byte
  injection address at the end of its first line; names the file path. -/
  | injectionAddressError (filePath : Str)
  /-- `generateInjectionFolderLines`: "Failed to read directory." -/
  | readDirError (folder : Str)
  /-- `generateReplaceBinaryLines` / `compile`: unreadable input file. -/
  | readFileError (file : Str)
  /-- `readConfigFile`: unreadable or unparsable codes.json. -/
  | configError
  /-- A Go runtime panic from slicing or indexing out of range. -/
  | sliceBounds
deriving DecidableEq, Repr

/-- How a build run dies: a recoverable panic or a hard `os.Exit`. -/
inductive BuildErr where
  | panicked (e : GeckoErr)
  | exited (code : Nat)
deriving DecidableEq, Repr

/-! ### Encoder (src/gecko.go lines 161-200) -/

/-- Model of `generateReplaceCodeLine` (gecko.go:161).  Go slicing
`address[2:]` panics when the address has fewer than 2 characters. -/
def generateReplaceCodeLine (address value : Str) : Except BuildErr Str :=
  if address.length < 2 then .error (.panicked .sliceBounds)
  else .ok (str "04" ++ toUpperStr (address.drop 2) ++ str " " ++ toUpperStr value)

/-- The displacement computed by `generateBranchCodeLine` before the link
bit is added: `targetAddressUint - addressUint` in uint64 arithmetic. -/
def branchAddressDiff (addressUint targetAddressUint : Nat) : Nat :=
  (targetAddressUint + 2 ^ 64 - addressUint) % 2 ^ 64

/-- The 6-character displacement field: `fmt.Sprintf("%06X", d)` followed by
taking the final 6 characters. -/
def branchDiffStr (d : Nat) : Str := lastN 6 (sprintfHexPad 6 d)

/-- Model of `generateBranchCodeLine` (gecko.go:166).  The error of the
first `ParseUint` is overwritten by the second one before the `err` check,
exactly as in the Go code, and the test `addressDiff < 0` is performed on an
unsigned value, so its `then` branch (prefix `4B`, Go variable `prefix`,
renamed `pfx` here) is dead. -/
def generateBranchCodeLine (address targetAddress : Str) (shouldLink : Bool) :
    Except BuildErr Str :=
  if address.length < 2 ∨ targetAddress.length < 2 then
    .error (.panicked .sliceBounds)
  else
    let addressUint := (parseUintHex32 (address.drop 2)).1
    let parse2 := parseUintHex32 (targetAddress.drop 2)
    if parse2.2 = false then .error (.panicked .parseAddressError)
    else
      let addressDiff := branchAddressDiff addressUint parse2.1
      let pfx := if addressDiff < 0 then str "4B" else str "48"
      let addressDiff2 := if shouldLink then (addressDiff + 1) % 2 ^ 64 else addressDiff
      .ok (str "04" ++ toUpperStr (address.drop 2) ++ str " " ++ pfx ++
        branchDiffStr addressDiff2)

/-- Model of `addLineAnnotation` (gecko.go:194). -/
def addLineAnnot (line note : Str) : Str :=
  if note = [] then line else line ++ str " #" ++ note

/-! ### Instruction packer (inlined in gecko.go:301-306 and 326-328) -/

/-- Mode A padding (Inject, gecko.go:302-306): a terminator record when the
length is already a multiple of 8, otherwise one zero word. -/
def packModeA (instructions : List Nat) : List Nat :=
  if instructions.length % 8 = 0 then
    instructions ++ [0x60, 0x00, 0x00, 0x00, 0x00, 0x00, 0x00, 0x00]
  else instructions ++ [0x00, 0x00, 0x00, 0x00]

/-- Mode B padding (block / binary replace, gecko.go:326-328 and 353-355):
one no-op word only when the length is not a multiple of 8. -/
def packModeB (instructions : List Nat) : List Nat :=
  if instructions.length % 8 ≠ 0 then instructions ++ [0x60, 0x00, 0x00, 0x00]
  else instructions

/-- The record-emitting loop shared by the Inject / block / binary encoders
(gecko.go:310-314): `for i := 0; i < len; i += 8` slicing `[i:i+4]` and
`[i+4:i+8]`, which panics when fewer than 8 bytes remain. -/
def recordLines : List Nat → Except BuildErr (List Str)
  | [] => .ok []
  | b0 :: b1 :: b2 :: b3 :: b4 :: b5 :: b6 :: b7 :: rest =>
    match recordLines rest with
    | .error e => .error e
    | .ok lines =>
      .ok ((toUpperStr (hexEncode [b0, b1, b2, b3]) ++ str " " ++
        toUpperStr (hexEncode [b4, b5, b6, b7])) :: lines)
  | _ => .error (.panicked .sliceBounds)

/-- Model of `generateInjectionCodeLines` (gecko.go:281) after the call to
`compile` has produced `instructions0`; `file` is only used in the
no-code diagnostic. -/
def generateInjectionCodeLines (address file : Str) (instructions0 : List Nat) :
    Except BuildErr (List Str) :=
  if instructions0.length = 0 then .error (.panicked (.noCodeError file))
  else if instructions0.length = 4 then
    match generateReplaceCodeLine address (hexEncode (instructions0.take 4)) with
    | .error e => .error e
    | .ok replaceLine => .ok [replaceLine]
  else
    let instructions := packModeA instructions0
    if address.length < 2 then .error (.panicked .sliceBounds)
    else
      match recordLines instructions with
      | .error e => .error e
      | .ok recs =>
        .ok ((str "C2" ++ toUpperStr (address.drop 2) ++ str " " ++
          sprintfHexPad 8 (instructions.length / 8)) :: recs)

/-! ### Serializer (gecko.go:447-472) -/

/-- The GCT header: two repetitions of the magic word `00 D0 C0 DE`. -/
def gctHeader : List Nat := [0x00, 0xD0, 0xC0, 0xDE, 0x00, 0xD0, 0xC0, 0xDE]

/-- The GCT footer record `F0 00 00 00 00 00 00 00`. -/
def gctFooter : List Nat := [0xF0, 0x00, 0x00, 0x00, 0x00, 0x00, 0x00, 0x00]

/-- Model of the byte stream built by `writeGctOutput` (gecko.go:452): header,
then for every line with at least 17 characters whose characters `[0,8)` and
`[9,17)` decode as hex the 8 decoded bytes, then the footer. -/
def writeGctBytes (output : List Str) : List Nat :=
  (output.foldl
    (fun gctBytes line =>
      if line.length < 17 then gctBytes
      else
        match hexDecode (line.take 8 ++ (line.drop 9).take 8) with
        | none => gctBytes
        | some lineBytes => gctBytes ++ lineBytes)
    gctHeader) ++ gctFooter

/-- Model of `writeTextOutput` (gecko.go:447): lines joined by newlines. -/
def writeTextBytes (output : List Str) : Str :=
  List.intercalate ['\n'] output

/-! Specification-side notions for the serializer, written from the words of
the specification rather than from the loop in the source. -/

/-- A string is valid hex input for `hex.DecodeString` when its length is
even and every character is a hex digit. -/
def isValidHexStr (s : Str) : Bool :=
  decide (s.length % 2 = 0) && s.all (fun c => (hexDigitVal c).isSome)

/-- Spec-side classification of a code line for the binary serializer: at
least 17 characters with both 8-character substrings valid hex. -/
def isCodeLine (line : Str) : Bool :=
  decide (17 ≤ line.length) && isValidHexStr (line.take 8) &&
    isValidHexStr ((line.drop 9).take 8)

/-- Spec-side contribution of one line to the GCT byte stream: the 8 decoded
bytes for a code line and nothing for any other line. -/
def gctLineBytes (line : Str) : List Nat :=
  if isCodeLine line then (hexDecode (line.take 8 ++ (line.drop 9).take 8)).getD []
  else []

/-! ### Data model (gecko.go:19-50) and line sequencing -/

/-- Model of the `GeckoCode` struct; the Go field `Type` is called
`CodeType` because `Type` is reserved in Lean, and `Annotation` is shortened
to `Annot`. -/
structure GeckoCode where
  CodeType : Str
  Address : Str
  TargetAddress : Str
  Annot : Str
  IsRecursive : Bool
  SourceFile : Str
  SourceFolder : Str
  Value : Str

/-- Model of the `CodeDescription` struct. -/
structure CodeDescription where
  Name : Str
  Authors : List Str
  Description : List Str
  Build : List GeckoCode

/-- Model of the `Config` struct. -/
structure Config where
  OutputFiles : List Str
  Codes : List CodeDescription

/-- The code-type constants of gecko.go:42-50. -/
def Replace : Str := str "replace"

/-- Constant for the inject code type. -/
def Inject : Str := str "inject"

/-- Constant for the replaceCodeBlock code type. -/
def ReplaceCodeBlock : Str := str "replaceCodeBlock"

/-- Constant for the branch code type. -/
def Branch : Str := str "branch"

/-- Constant for the branchAndLink code type. -/
def BranchAndLink : Str := str "branchAndLink"

/-- Constant for the injectFolder code type. -/
def InjectFolder : Str := str "injectFolder"

/-- Constant for the replaceBinary code type. -/
def ReplaceBinary : Str := str "replaceBinary"

/-! ### Filesystem and external-collaborator model -/

/-- A snapshot of a directory tree: regular files carry the first line of
their text (used for the injection-address convention); directories carry
their entries in the order the filesystem reports them. -/
inductive FsEntry where
  | file (name firstLine : Str)
  | dir (name : Str) (entries : List FsEntry)
deriving Repr

/-- The name of a directory entry, as returned by `file.Name()`. -/
def FsEntry.name : FsEntry → Str
  | .file n _ => n
  | .dir n _ => n

/-- The sub-entries of a directory entry (empty for a regular file). -/
def FsEntry.children : FsEntry → List FsEntry
  | .file _ _ => []
  | .dir _ es => es

/-- Whether an entry is a directory, as reported by `file.IsDir()`. -/
def FsEntry.isDirE : FsEntry → Bool
  | .dir _ _ => true
  | .file _ _ => false

/-- The external collaborators of the core: the assembler toolchain behind
`compile` (whose failure is an `os.Exit(1)`, while unreadable files are
panics), the binary file reads of `generateReplaceBinaryLines`, and the
directory listing used by `generateInjectionFolderLines`. -/
structure Env where
  compile : Str → Except BuildErr (List Nat)
  readBin : Str → Except BuildErr (List Nat)
  readDir : Str → Except BuildErr (List FsEntry)

/-- `generateInjectionCodeLines` as called in the source: `compile` the file,
then encode the resulting bytes. -/
def generateInjectionCodeLinesEnv (env : Env) (address file : Str) :
    Except BuildErr (List Str) :=
  match env.compile file with
  | .error e => .error e
  | .ok instructions => generateInjectionCodeLines address file instructions

/-- Model of `generateReplaceCodeBlockLines` (gecko.go:319). -/
def generateReplaceCodeBlockLines (env : Env) (address file : Str) :
    Except BuildErr (List Str) :=
  match env.compile file with
  | .error e => .error e
  | .ok contents =>
    let instructions := packModeB contents
    if address.length < 2 then .error (.panicked .sliceBounds)
    else
      match recordLines instructions with
      | .error e => .error e
      | .ok recs =>
        .ok ((str "06" ++ toUpperStr (address.drop 2) ++ str " " ++
          sprintfHexPad 8 instructions.length) :: recs)

/-- Model of `generateReplaceBinaryLines` (gecko.go:341): identical to the
block replace but reading the file as an opaque binary blob. -/
def generateReplaceBinaryLines (env : Env) (address file : Str) :
    Except BuildErr (List Str) :=
  match env.readBin file with
  | .error e => .error e
  | .ok contents =>
    let instructions := packModeB contents
    if address.length < 2 then .error (.panicked .sliceBounds)
    else
      match recordLines instructions with
      | .error e => .error e
      | .ok recs =>
        .ok ((str "06" ++ toUpperStr (address.drop 2) ++ str " " ++
          sprintfHexPad 8 instructions.length) :: recs)

/-! ### Folder injection (gecko.go:202-279) -/

/-- The per-file body of the first loop of `generateInjectionFolderLines`
(gecko.go:220-261): read the first line, require its final 8 characters to
be a well-formed hex address, compile the file and annotate the first
emitted line with the file path. -/
def processAsmEntry (env : Env) (filePath firstLine : Str) :
    Except BuildErr (List Str) :=
  if firstLine.length < 8 then .error (.panicked (.injectionAddressError filePath))
  else
    let address := firstLine.drop (firstLine.length - 8)
    match hexDecode address with
    | none => .error (.panicked (.injectionAddressError filePath))
    | some _ =>
      match generateInjectionCodeLinesEnv env address filePath with
      | .error e => .error e
      | .ok [] => .error (.panicked .sliceBounds)
      | .ok (l :: ls) => .ok (addLineAnnot l filePath :: ls)

/-- The first loop of `generateInjectionFolderLines` (gecko.go:210-262): every
entry whose name carries the `.asm` extension is opened as a file.  A
directory with that extension is opened too; scanning it yields an empty
first line, so it fails the address check, exactly like the Go code on
Linux. -/
def filesLoop (env : Env) (folder : Str) : List FsEntry → Except BuildErr (List Str)
  | [] => .ok []
  | e :: rest =>
    if fileExt (FsEntry.name e) ≠ str ".asm" then filesLoop env folder rest
    else
      match
        ((match e with
         | .dir dname _ =>
           .error (.panicked (.injectionAddressError (pathJoin folder dname)))
         | .file fname firstLine =>
           processAsmEntry env (pathJoin folder fname) firstLine) :
          Except BuildErr (List Str)) with
      | .error er => .error er
      | .ok fileLines =>
        match filesLoop env folder rest with
        | .error er => .error er
        | .ok restLines => .ok (fileLines ++ restLines)

mutual

/-- Model of `generateInjectionFolderLines` (gecko.go:202) on a directory
snapshot: first the file loop over the entries, then, when recursive, the
directory loop. -/
def generateInjectionFolderLines (env : Env) (folder : Str) (isRecursive : Bool)
    (entries : List FsEntry) : Except BuildErr (List Str) :=
  match filesLoop env folder entries with
  | .error e => .error e
  | .ok lines =>
    if isRecursive then
      match dirsLoop env folder isRecursive entries with
      | .error e => .error e
      | .ok dirLines => .ok (lines ++ dirLines)
    else .ok lines

/-- The second loop of `generateInjectionFolderLines` (gecko.go:264-276):
process every subdirectory recursively, appending its lines. -/
def dirsLoop (env : Env) (folder : Str) (isRecursive : Bool) :
    List FsEntry → Except BuildErr (List Str)
  | [] => .ok []
  | .file _ _ :: rest => dirsLoop env folder isRecursive rest
  | .dir dname sub :: rest =>
    match generateInjectionFolderLines env (pathJoin folder dname) isRecursive sub with
    | .error e => .error e
    | .ok dirLines =>
      match dirsLoop env folder isRecursive rest with
      | .error e => .error e
      | .ok restLines => .ok (dirLines ++ restLines)

end

/-! ### Line sequencer and main pipeline (gecko.go:54-159) -/

/-- Model of `generateHeaderLines` (gecko.go:111). -/
def generateHeaderLines (desc : CodeDescription) : List Str :=
  ('$' :: desc.Name ++ str " [" ++ List.intercalate (str ", ") desc.Authors ++ str "]")
    :: desc.Description.map (fun line => '*' :: line)

/-- One arm of the `switch geckoCode.Type` in `generateCodeLines`
(gecko.go:127-155).  An unrecognized type falls through the switch and
contributes no lines. -/
def generateCodeLinesOne (env : Env) (c : GeckoCode) : Except BuildErr (List Str) :=
  if c.CodeType = Replace then
    match generateReplaceCodeLine c.Address c.Value with
    | .error e => .error e
    | .ok line => .ok [addLineAnnot line (GeckoCode.Annot c)]
  else if c.CodeType = Inject then
    match generateInjectionCodeLinesEnv env c.Address c.SourceFile with
    | .error e => .error e
    | .ok [] => .error (.panicked .sliceBounds)
    | .ok (l :: ls) => .ok (addLineAnnot l (GeckoCode.Annot c) :: ls)
  else if c.CodeType = ReplaceCodeBlock then
    match generateReplaceCodeBlockLines env c.Address c.SourceFile with
    | .error e => .error e
    | .ok [] => .error (.panicked .sliceBounds)
    | .ok (l :: ls) => .ok (addLineAnnot l (GeckoCode.Annot c) :: ls)
  else if c.CodeType = ReplaceBinary then
    match generateReplaceBinaryLines env c.Address c.SourceFile with
    | .error e => .error e
    | .ok [] => .error (.panicked .sliceBounds)
    | .ok (l :: ls) => .ok (addLineAnnot l (GeckoCode.Annot c) :: ls)
  else if c.CodeType = Branch ∨ c.CodeType = BranchAndLink then
    let shouldLink := decide (c.CodeType = BranchAndLink)
    match generateBranchCodeLine c.Address c.TargetAddress shouldLink with
    | .error e => .error e
    | .ok line => .ok [addLineAnnot line (GeckoCode.Annot c)]
  else if c.CodeType = InjectFolder then
    match env.readDir c.SourceFolder with
    | .error e => .error e
    | .ok entries =>
      generateInjectionFolderLines env c.SourceFolder c.IsRecursive entries
  else .ok []

/-- The loop of `generateCodeLines` (gecko.go:124) over the build entries of
one description. -/
def generateCodeLinesList (env : Env) : List GeckoCode → Except BuildErr (List Str)
  | [] => .ok []
  | c :: rest =>
    match generateCodeLinesOne env c with
    | .error e => .error e
    | .ok ls =>
      match generateCodeLinesList env rest with
      | .error e => .error e
      | .ok rs => .ok (ls ++ rs)

/-- Model of `generateCodeLines` (gecko.go:124). -/
def generateCodeLines (env : Env) (desc : CodeDescription) :
    Except BuildErr (List Str) :=
  generateCodeLinesList env desc.Build

/-- Model of `buildBody` (gecko.go:98): header lines, then code lines, then a
blank separator line, for every description in order. -/
def buildBody (env : Env) : List CodeDescription → Except BuildErr (List Str)
  | [] => .ok []
  | desc :: rest =>
    match generateCodeLines env desc with
    | .error e => .error e
    | .ok codeLines =>
      match buildBody env rest with
      | .error e => .error e
      | .ok restLines =>
        .ok (generateHeaderLines desc ++ codeLines ++ [[]] ++ restLines)

/-- Content written for one output file by `writeOutput` (gecko.go:434). -/
inductive OutContent where
  | text (contents : Str)
  | binary (contents : List Nat)
deriving Repr

/-- Model of `writeOutput` (gecko.go:434): the `.gct` extension selects the
binary serializer, everything else the text serializer. -/
def writeOutputContent (output : List Str) (outputFile : Str) : OutContent :=
  if fileExt outputFile = str ".gct" then .binary (writeGctBytes output)
  else .text (writeTextBytes output)

/-- Model of `main` (gecko.go:54).  The deferred `recover()` swallows every
panic, so a panic-based abort returns exit status 0; only the `os.Exit`
paths inside `compile` produce a non-zero status.  The result is the exit
status together with the output files written (name and content); no file
is written unless the whole body was built. -/
def geckoMain (env : Env) (args : List Str) (configResult : Except BuildErr Config) :
    Nat × List (Str × OutContent) :=
  match args with
  | [] => (0, [])
  | [_] => (0, [])
  | _ :: cmd :: _ =>
    if cmd ≠ str "build" then (0, [])
    else
      match configResult with
      | .error (.exited code) => (code, [])
      | .error (.panicked _) => (0, [])
      | .ok config =>
        if config.OutputFiles.length < 1 then (0, [])
        else
          match buildBody env config.Codes with
          | .error (.exited code) => (code, [])
          | .error (.panicked _) => (0, [])
          | .ok output =>
            (0, config.OutputFiles.map (fun f => (f, writeOutputContent output f)))

/-! ### Specification-side definitions

These follow the words of the specification (and of the claims) rather than
the loops of the source; the theorems below compare them with the
source-shaped definitions. -/

/-- Numeric value of a big-endian hex string (each character contributing
its digit value), used to read a displacement field back as a number. -/
def hexStrVal (s : Str) : Nat :=
  s.foldl (fun acc c => acc * 16 + (hexDigitVal c).getD 0) 0

/-- Mathematical big-endian hex digits of a number: one character for values
below 16, otherwise the digits of `n / 16` followed by the last digit. -/
def bigDigits (n : Nat) : Str :=
  if n < 16 then [hexDigitUpper n]
  else bigDigits (n / 16) ++ [hexDigitUpper (n % 16)]
termination_by n
decreasing_by exact Nat.div_lt_self (by omega) (by omega)

/-- Exactly `w` big-endian hex digits of `n` (modulo `16 ^ w`). -/
def hexFixed : Nat → Nat → Str
  | 0, _ => []
  | w + 1, n => hexFixed w (n / 16) ++ [hexDigitUpper (n % 16)]

/-- Spec-side processing of one `.asm`-named directory entry: the injection
address is the last 8 characters of the first line and must be well-formed
hex, otherwise the build fails naming the offending file; the first line of
the output is annotated with the file path. -/
def processEntrySpec (env : Env) (folder : Str) (e : FsEntry) :
    Except BuildErr (List Str) :=
  match e with
  | .dir dname _ => .error (.panicked (.injectionAddressError (pathJoin folder dname)))
  | .file fname firstLine =>
    let filePath := pathJoin folder fname
    if 8 ≤ firstLine.length ∧ isValidHexStr (lastN 8 firstLine) = true then
      match generateInjectionCodeLinesEnv env (lastN 8 firstLine) filePath with
      | .error e => .error e
      | .ok [] => .error (.panicked .sliceBounds)
      | .ok (l :: ls) => .ok (addLineAnnot l filePath :: ls)
    else .error (.panicked (.injectionAddressError filePath))

/-- Spec-side folder processing: the `.asm`-named entries of the directory in
order, each processed by `processEntrySpec`, followed (when recursive) by the
results of the subdirectories in order, depth-first. -/
def folderLinesSpec (env : Env) (folder : Str) (isRecursive : Bool)
    (entries : List FsEntry) : Except BuildErr (List Str) :=
  match (entries.filter (fun e => decide (fileExt (FsEntry.name e) = str ".asm"))).mapM
      (processEntrySpec env folder) with
  | .error e => .error e
  | .ok fileParts =>
    match (if isRecursive then
        (entries.filter FsEntry.isDirE).mapM
          (fun e => generateInjectionFolderLines env (pathJoin folder (FsEntry.name e))
            isRecursive (FsEntry.children e))
      else .ok []) with
    | .error e => .error e
    | .ok dirPartsL => .ok (fileParts.flatten ++ dirPartsL.flatten)

/-! ### Concrete fixtures used by counterexamples and witnesses -/

/-- An environment whose binary reads return a single byte `0x41`. -/
def envBin1 : Env where
  compile := fun _ => .ok []
  readBin := fun _ => .ok [0x41]
  readDir := fun _ => .ok []

/-- An environment whose assembler produces no bytes for any file. -/
def envEmptyAsm : Env where
  compile := fun _ => .ok []
  readBin := fun _ => .ok []
  readDir := fun _ => .ok []

/-- A configuration with one description holding a single Inject entry whose
source file compiles to zero bytes under `envEmptyAsm`. -/
def cfgNoCode : Config where
  OutputFiles := [str "codes.gct"]
  Codes := [{ Name := str "Test"
              Authors := [str "A"]
              Description := [str "D"]
              Build := [{ CodeType := Inject
                          Address := str "80001234"
                          TargetAddress := []
                          Annot := []
                          IsRecursive := false
                          SourceFile := str "empty.asm"
                          SourceFolder := []
                          Value := [] }] }]

/-! ### Supporting lemmas -/

/-- The record loop succeeds on a list of length `8 * k`, producing exactly
`k` lines. -/
theorem recordLines_ok (k : Nat) : ∀ l : List Nat, l.length = 8 * k →
    ∃ recs, recordLines l = .ok recs ∧ recs.length = k := by
  induction k with
  | zero =>
    intro l hl
    have hnil : l = [] := List.length_eq_zero.mp (by omega)
    subst hnil
    exact ⟨[], rfl, rfl⟩
  | succ k ih =>
    intro l hl
    rcases l with _ | ⟨b0, _ | ⟨b1, _ | ⟨b2, _ | ⟨b3, _ | ⟨b4, _ | ⟨b5, _ | ⟨b6,
      _ | ⟨b7, rest⟩⟩⟩⟩⟩⟩⟩⟩
    all_goals simp only [List.length_cons, List.length_nil] at hl
    any_goals omega
    obtain ⟨recs, hr, hlen⟩ := ih rest (by omega)
    refine ⟨(toUpperStr (hexEncode [b0, b1, b2, b3]) ++ str " " ++
      toUpperStr (hexEncode [b4, b5, b6, b7])) :: recs, ?_, ?_⟩
    · simp [recordLines, hr]
    · simp [hlen]

/-- `hex.DecodeString` succeeds exactly on valid hex strings. -/
theorem hexDecode_isSome : ∀ s : Str, (hexDecode s).isSome = isValidHexStr s
  | [] => by simp [hexDecode, isValidHexStr]
  | [c] => by simp [hexDecode, isValidHexStr]
  | c1 :: c2 :: rest => by
    have ih := hexDecode_isSome rest
    simp only [hexDecode, isValidHexStr, List.all_cons, List.length_cons] at ih ⊢
    rw [(decide_eq_decide.mpr (by omega) :
      decide ((rest.length + 1 + 1) % 2 = 0) = decide (rest.length % 2 = 0))]
    cases h1 : hexDigitVal c1 <;> cases h2 : hexDigitVal c2 <;>
      cases h3 : hexDecode rest <;> simp_all

/-- Decoding a concatenation whose first part has even length decodes the
parts independently. -/
theorem hexDecode_append : ∀ a b : Str, a.length % 2 = 0 →
    hexDecode (a ++ b) =
      match hexDecode a, hexDecode b with
      | some x, some y => some (x ++ y)
      | _, _ => none
  | [], b, _ => by cases h : hexDecode b <;> simp [hexDecode, h]
  | [c], b, h => by simp at h
  | c1 :: c2 :: rest, b, h => by
    have ih := hexDecode_append rest b (by simp at h; omega)
    simp only [List.cons_append, hexDecode, ih]
    cases h1 : hexDigitVal c1 <;> cases h2 : hexDigitVal c2 <;>
      cases h3 : hexDecode rest <;> cases h4 : hexDecode b <;> simp_all

/-- A successful hex decode produces half as many bytes as characters. -/
theorem hexDecode_length : ∀ s : Str, ∀ bs : List Nat,
    hexDecode s = some bs → 2 * bs.length = s.length
  | [], bs => by intro h; simp [hexDecode] at h; simp [← h]
  | [c], bs => by intro h; simp [hexDecode] at h
  | c1 :: c2 :: rest, bs => by
    intro h
    simp only [hexDecode] at h
    split at h
    · rename_i v1 v2 bs0 h1 h2 h3
      have ih := hexDecode_length rest bs0 h3
      cases h
      simp only [List.length_cons]
      omega
    · simp at h

/-- One step of the `writeGctOutput` loop appends exactly the spec-side
per-line contribution. -/
theorem gct_step (acc : List Nat) (line : Str) :
    (if line.length < 17 then acc
     else
       match hexDecode (line.take 8 ++ (line.drop 9).take 8) with
       | none => acc
       | some lineBytes => acc ++ lineBytes) = acc ++ gctLineBytes line := by
  by_cases h17 : line.length < 17
  · simp [h17, gctLineBytes, isCodeLine, (by omega : ¬ (17 ≤ line.length))]
  · have happ := hexDecode_append (line.take 8) ((line.drop 9).take 8)
      (by simp [List.length_take]; omega)
    rw [if_neg h17]
    have hcode : isCodeLine line =
        ((hexDecode (line.take 8)).isSome &&
          (hexDecode ((line.drop 9).take 8)).isSome) := by
      simp [isCodeLine, ← hexDecode_isSome, (by omega : 17 ≤ line.length)]
    cases hA2 : hexDecode (line.take 8) <;>
      cases hB2 : hexDecode ((line.drop 9).take 8) <;>
      rw [hA2, hB2] at happ <;> simp_all [gctLineBytes]

/-- The `writeGctOutput` loop as a flat map over the lines. -/
theorem gct_foldl : ∀ (output : List Str) (acc : List Nat),
    (output.foldl
      (fun gctBytes line =>
        if line.length < 17 then gctBytes
        else
          match hexDecode (line.take 8 ++ (line.drop 9).take 8) with
          | none => gctBytes
          | some lineBytes => gctBytes ++ lineBytes)
      acc) = acc ++ output.flatMap gctLineBytes
  | [], acc => by simp
  | line :: rest, acc => by
    rw [List.foldl_cons, gct_step, gct_foldl rest, List.flatMap_cons,
      List.append_assoc]

/-- The number of bytes a line contributes to the GCT stream: 8 for a code
line and 0 otherwise. -/
theorem gctLineBytes_length (line : Str) :
    (gctLineBytes line).length = if isCodeLine line then 8 else 0 := by
  by_cases h : isCodeLine line = true
  · have h17 : 17 ≤ line.length := by
      by_contra hc
      simp [isCodeLine] at h
      exact hc h.1.1
    have hsome : (hexDecode (line.take 8 ++ (line.drop 9).take 8)).isSome = true := by
      rw [hexDecode_append (line.take 8) ((line.drop 9).take 8)
        (by simp [List.length_take]; omega)]
      have hA : (hexDecode (line.take 8)).isSome = true := by
        rw [hexDecode_isSome]
        simp only [isCodeLine, Bool.and_eq_true] at h
        exact h.1.2
      have hB : (hexDecode ((line.drop 9).take 8)).isSome = true := by
        rw [hexDecode_isSome]
        simp only [isCodeLine, Bool.and_eq_true] at h
        exact h.2
      cases hA2 : hexDecode (line.take 8) <;>
        cases hB2 : hexDecode ((line.drop 9).take 8) <;> simp_all
    obtain ⟨bs, hbs⟩ := Option.isSome_iff_exists.mp hsome
    have hlen := hexDecode_length _ bs hbs
    have hA : (line.take 8).length = 8 := by simp [List.length_take]; omega
    have hB : ((line.drop 9).take 8).length = 8 := by
      simp [List.length_take, List.length_drop]; omega
    simp only [List.length_append, hA, hB] at hlen
    simp [gctLineBytes, h, hbs]
    omega
  · simp [gctLineBytes, h]

/-! ### Claim theorems -/

/-- Claim C2, counterexample: a single-byte input makes the Mode B packer
produce 5 bytes, which is not divisible by 8, and the ReplaceBinary encoder
dies with a slice-bounds panic instead of splitting the result into whole
8-byte records. -/
theorem c2_counterexample :
    (packModeB [0x41]).length % 8 ≠ 0 ∧
    generateReplaceBinaryLines envBin1 (str "80001234") (str "file.bin") =
      .error (.panicked .sliceBounds) :=
  ⟨by decide, rfl⟩

/-- Claim C2, amended: for inputs whose length is a multiple of 4 (which
every assembler output is, one word per instruction), both packing modes
produce a length divisible by 8. -/
theorem c2_amended (instructions : List Nat) (h : instructions.length % 4 = 0) :
    (packModeA instructions).length % 8 = 0 ∧
    (packModeB instructions).length % 8 = 0 := by
  unfold packModeA packModeB
  constructor <;> split <;>
    (try simp only [List.length_append, List.length_cons, List.length_nil]) <;> omega

/-- Witness for `c2_amended` at a concrete 4-byte input. -/
theorem c2_amended_witness :
    ([0, 0, 0, 0] : List Nat).length % 4 = 0 ∧
    (packModeA [0, 0, 0, 0]).length % 8 = 0 ∧
    (packModeB [0, 0, 0, 0]).length % 8 = 0 :=
  ⟨by decide, c2_amended [0, 0, 0, 0] (by decide)⟩

/-- Claim C3: Mode A packing appends the 8-byte terminator record
`60 00 00 00 00 00 00 00` when the length is a multiple of 8 and a 4-byte
zero word otherwise; length 32 becomes 40, length 28 becomes 32. -/
theorem c3_packModeA :
    (∀ instructions : List Nat, 4 < instructions.length →
      packModeA instructions = instructions ++
        (if instructions.length % 8 = 0 then
          [0x60, 0x00, 0x00, 0x00, 0x00, 0x00, 0x00, 0x00]
        else [0x00, 0x00, 0x00, 0x00])) ∧
    (packModeA (List.replicate 32 0)).length = 40 ∧
    (packModeA (List.replicate 28 0)).length = 32 := by
  refine ⟨fun instructions _ => ?_, by decide, by decide⟩
  unfold packModeA
  split <;> rfl

/-- Witness for `c3_packModeA` at a concrete input of length 28. -/
theorem c3_packModeA_witness :
    4 < (List.replicate 28 (0 : Nat)).length ∧
    packModeA (List.replicate 28 0) = List.replicate 28 0 ++
      (if (List.replicate 28 (0 : Nat)).length % 8 = 0 then
        [0x60, 0x00, 0x00, 0x00, 0x00, 0x00, 0x00, 0x00]
      else [0x00, 0x00, 0x00, 0x00]) :=
  ⟨by decide, c3_packModeA.1 (List.replicate 28 0) (by decide)⟩

/-- Claim C4, counterexample: a compiled length of 6 is neither 0 nor 4, yet
the Inject encoder does not produce a header plus records — the padded
length is 10 and the record loop dies with a slice-bounds panic. -/
theorem c4_counterexample :
    generateInjectionCodeLines (str "80001234") (str "file.asm") [0, 0, 0, 0, 0, 0] =
      .error (.panicked .sliceBounds) := rfl

/-- Claim C4, amended: length 0 is the fatal no-code error naming the file;
length 4 degenerates to a single `04` line carrying the 4 bytes in hex; any
other length that is a multiple of 4 yields the `C2` header (whose count is
the Mode-A-packed length divided by 8) followed by one line per 8-byte
record. -/
theorem c4_amended :
    (∀ address file : Str, generateInjectionCodeLines address file [] =
      .error (.panicked (.noCodeError file))) ∧
    (∀ (address file : Str) (b0 b1 b2 b3 : Nat), 2 ≤ address.length →
      generateInjectionCodeLines address file [b0, b1, b2, b3] =
        .ok [str "04" ++ toUpperStr (address.drop 2) ++ str " " ++
          toUpperStr (hexEncode [b0, b1, b2, b3])]) ∧
    (∀ (address file : Str) (instructions : List Nat), 2 ≤ address.length →
      instructions.length % 4 = 0 → instructions ≠ [] → instructions.length ≠ 4 →
      ∃ recs, recordLines (packModeA instructions) = .ok recs ∧
        recs.length = (packModeA instructions).length / 8 ∧
        generateInjectionCodeLines address file instructions =
          .ok ((str "C2" ++ toUpperStr (address.drop 2) ++ str " " ++
            sprintfHexPad 8 ((packModeA instructions).length / 8)) :: recs)) := by
  refine ⟨fun address file => rfl, ?_, ?_⟩
  · intro address file b0 b1 b2 b3 h2
    unfold generateInjectionCodeLines generateReplaceCodeLine
    rw [if_neg (by simp), if_pos (by simp), if_neg (by omega)]
    rfl
  · intro address file instructions h2 h4 hne h4ne
    have hlen0 : instructions.length ≠ 0 := by
      simpa [Ne, List.length_eq_zero] using hne
    have h8 : (packModeA instructions).length % 8 = 0 := by
      unfold packModeA
      split <;> simp only [List.length_append, List.length_cons, List.length_nil] <;>
        omega
    obtain ⟨recs, hr, hrl⟩ :=
      recordLines_ok ((packModeA instructions).length / 8) (packModeA instructions)
        (by omega)
    refine ⟨recs, hr, hrl, ?_⟩
    simp only [generateInjectionCodeLines]
    rw [if_neg hlen0, if_neg h4ne, if_neg (by omega), hr]

/-- Witness for `c4_amended` (third conjunct) at a concrete 8-byte input. -/
theorem c4_amended_witness :
    ∃ recs, recordLines (packModeA [0, 0, 0, 0, 0, 0, 0, 0]) = .ok recs ∧
      recs.length = (packModeA [0, 0, 0, 0, 0, 0, 0, 0]).length / 8 ∧
      generateInjectionCodeLines (str "80001234") (str "x.asm")
          [0, 0, 0, 0, 0, 0, 0, 0] =
        .ok ((str "C2" ++ toUpperStr ((str "80001234").drop 2) ++ str " " ++
          sprintfHexPad 8 ((packModeA [0, 0, 0, 0, 0, 0, 0, 0]).length / 8)) :: recs) :=
  c4_amended.2.2 (str "80001234") (str "x.asm") [0, 0, 0, 0, 0, 0, 0, 0]
    (by decide) (by decide) (by decide) (by decide)

/-- Claim C1: evaluating the branch encoder at a pair with
`target < base` shows the emitted prefix is `48`, not `4B` — the sign test
on the unsigned subtraction can never fire, so the `4B` assignment is dead
code; the zero-displacement case does hold with prefix `48` and field
`000000`. -/
theorem c1_divergence :
    generateBranchCodeLine (str "80000002") (str "80000001") false =
      .ok (str "04000002 48FFFFFF") ∧
    (parseUintHex32 (str "000001")).1 < (parseUintHex32 (str "000002")).1 ∧
    generateBranchCodeLine (str "80001234") (str "80001234") false =
      .ok (str "04001234 48000000") :=
  ⟨rfl, by decide, rfl⟩

/-- Claim C8: at a configuration whose only entry fails with the no-code
panic, the build aborts before writing any output file, but the deferred
`recover()` in `main` swallows the panic, so the process exits with status
0 rather than the non-zero status the specification promises. -/
theorem c8_divergence :
    buildBody envEmptyAsm cfgNoCode.Codes =
      .error (.panicked (.noCodeError (str "empty.asm"))) ∧
    geckoMain envEmptyAsm [str "gecko", str "build"] (.ok cfgNoCode) = (0, []) :=
  ⟨rfl, rfl⟩

/-- A line whose first character is not a hex digit contributes nothing to
the GCT stream. -/
theorem gctLineBytes_bad_head (c : Char) (line : Str) (hc : hexDigitVal c = none) :
    gctLineBytes (c :: line) = [] := by
  have hfalse : isCodeLine (c :: line) = false := by
    simp [isCodeLine, isValidHexStr, List.take_succ_cons, List.all_cons, hc]
  simp [gctLineBytes, hfalse]

/-- Claim C6: the GCT serialization is the 8-byte doubled magic header, then
for every line in order the 8 bytes decoded from characters [0,8) and [9,17)
exactly when the line is at least 17 characters long and both substrings are
valid hex, then the 8-byte footer; lines starting with the header marker, the
comment marker, and blank lines contribute nothing. -/
theorem c6_gct_serialization :
    (∀ output : List Str, writeGctBytes output =
      gctHeader ++ output.flatMap gctLineBytes ++ gctFooter) ∧
    (∀ line : Str, gctLineBytes ('$' :: line) = [] ∧
      gctLineBytes ('*' :: line) = []) ∧
    gctLineBytes [] = [] := by
  refine ⟨fun output => ?_, fun line => ⟨?_, ?_⟩, rfl⟩
  · unfold writeGctBytes
    rw [gct_foldl, List.append_assoc]
  · exact gctLineBytes_bad_head _ line rfl
  · exact gctLineBytes_bad_head _ line rfl

/-- Claim C10: the GCT byte stream length is 16 plus 8 per accepted code
line, hence a multiple of 8 and at least 16 even with no code lines. -/
theorem c10_gct_length : ∀ output : List Str,
    (writeGctBytes output).length = 16 + 8 * output.countP isCodeLine ∧
    (writeGctBytes output).length % 8 = 0 ∧
    16 ≤ (writeGctBytes output).length := by
  have hflat : ∀ output : List Str,
      (output.flatMap gctLineBytes).length = 8 * output.countP isCodeLine := by
    intro output
    induction output with
    | nil => simp
    | cons l rest ih =>
      rw [List.flatMap_cons, List.length_append, ih, List.countP_cons,
        gctLineBytes_length]
      by_cases h : isCodeLine l
      all_goals simp [h]
      all_goals omega
  intro output
  have hw : (writeGctBytes output).length = 16 + 8 * output.countP isCodeLine := by
    unfold writeGctBytes
    rw [gct_foldl, List.length_append, List.length_append, hflat]
    simp [gctHeader, gctFooter]
    omega
  exact ⟨hw, by omega, by omega⟩

/-- Claim C9, counterexample: when the base address fails to parse with a
range error (9 hex digits), the line is produced without any error, but with
the base treated as 2 ^ 32 - 1 rather than 0, so the emitted displacement
field is 000002 instead of the 000001 that a zero base would give. -/
theorem c9_counterexample :
    generateBranchCodeLine (str "0x123456789") (str "0x00000001") false =
      .ok (str "04123456789 48000002") ∧
    (parseUintHex32 ((str "0x123456789").drop 2)).2 = false ∧
    (parseUintHex32 ((str "0x00000001").drop 2)).2 = true ∧
    str "04123456789 48000002" ≠ str "04123456789 48000001" :=
  ⟨rfl, rfl, rfl, by decide⟩

/-- The digit accumulator never decreases along a scan. -/
theorem foldl_hexVal_le : ∀ (s : Str) (n : Nat),
    n ≤ s.foldl (fun acc c => acc * 16 + (hexDigitVal c).getD 0) n := by
  intro s
  induction s with
  | nil => intro n; exact Nat.le_refl n
  | cons c rest ih =>
    intro n
    calc n ≤ n * 16 + (hexDigitVal c).getD 0 := by omega
      _ ≤ _ := ih (n * 16 + (hexDigitVal c).getD 0)

/-- Scanning past an all-hex prefix whose accumulated value stays within 32
bits just accumulates it and continues. -/
theorem parseUintHex32Loop_append : ∀ (s1 t : Str) (n : Nat),
    s1.all (fun ch => (hexDigitVal ch).isSome) = true →
    s1.foldl (fun acc c => acc * 16 + (hexDigitVal c).getD 0) n < 2 ^ 32 →
    parseUintHex32Loop n (s1 ++ t) =
      parseUintHex32Loop (s1.foldl (fun acc c => acc * 16 + (hexDigitVal c).getD 0) n) t := by
  intro s1
  induction s1 with
  | nil => intro t n _ _; rfl
  | cons c rest ih =>
    intro t n hall hbound
    simp only [List.all_cons, Bool.and_eq_true] at hall
    obtain ⟨hc, hrest⟩ := hall
    obtain ⟨d, hd⟩ := Option.isSome_iff_exists.mp hc
    have hfold : (c :: rest).foldl (fun acc c => acc * 16 + (hexDigitVal c).getD 0) n =
        rest.foldl (fun acc c => acc * 16 + (hexDigitVal c).getD 0) (n * 16 + d) := by
      simp [List.foldl_cons, hd]
    rw [hfold] at hbound ⊢
    have hle := foldl_hexVal_le rest (n * 16 + d)
    simp only [List.cons_append, parseUintHex32Loop, hd]
    rw [if_neg (by omega)]
    exact ih t (n * 16 + d) hrest hbound

/-- A failed scan returns either the syntax-error value 0 or the range-error
value `2 ^ 32 - 1`. -/
theorem parseUintHex32Loop_fail : ∀ (t : Str) (n : Nat),
    (parseUintHex32Loop n t).2 = false →
    (parseUintHex32Loop n t).1 = 0 ∨ (parseUintHex32Loop n t).1 = 2 ^ 32 - 1 := by
  intro t
  induction t with
  | nil => intro n h; simp [parseUintHex32Loop] at h
  | cons c rest ih =>
    intro n h
    simp only [parseUintHex32Loop] at h ⊢
    split at h
    · rename_i heq
      simp [heq]
    · rename_i d heq
      by_cases hov : 2 ^ 32 - 1 < n * 16 + d
      · rw [if_pos hov]
        exact Or.inr rfl
      · rw [if_neg hov] at h
        rw [if_neg hov]
        exact ih (n * 16 + d) h

/-- Claim C9, amended: when parsing the base address fails but parsing the
target succeeds, the overwritten error is never checked, no error is raised,
and the line is produced using the value returned by the failed parse as the
base.  Go scans left to right, so that value is 0 or `2 ^ 32 - 1`: 0 when a
non-hex character is reached while the accumulator is still within 32 bits
(third conjunct), `2 ^ 32 - 1` as soon as the accumulator overflows, even if
a malformed character follows later (fourth conjunct). -/
theorem c9_amended :
    (∀ (address targetAddress : Str) (shouldLink : Bool),
      2 ≤ address.length → 2 ≤ targetAddress.length →
      (parseUintHex32 (address.drop 2)).2 = false →
      (parseUintHex32 (targetAddress.drop 2)).2 = true →
      generateBranchCodeLine address targetAddress shouldLink =
        .ok (str "04" ++ toUpperStr (address.drop 2) ++ str " " ++ str "48" ++
          branchDiffStr
            (if shouldLink then
              (branchAddressDiff (parseUintHex32 (address.drop 2)).1
                (parseUintHex32 (targetAddress.drop 2)).1 + 1) % 2 ^ 64
            else
              branchAddressDiff (parseUintHex32 (address.drop 2)).1
                (parseUintHex32 (targetAddress.drop 2)).1))) ∧
    (∀ s : Str, (parseUintHex32 s).2 = false →
      (parseUintHex32 s).1 = 0 ∨ (parseUintHex32 s).1 = 2 ^ 32 - 1) ∧
    (∀ (s1 s2 : Str) (c : Char),
      s1.all (fun ch => (hexDigitVal ch).isSome) = true →
      hexStrVal s1 < 2 ^ 32 → hexDigitVal c = none →
      parseUintHex32 (s1 ++ c :: s2) = (0, false)) ∧
    (∀ (s1 s2 : Str) (c : Char) (d : Nat),
      s1.all (fun ch => (hexDigitVal ch).isSome) = true →
      hexStrVal s1 < 2 ^ 32 → hexDigitVal c = some d →
      2 ^ 32 ≤ hexStrVal s1 * 16 + d →
      parseUintHex32 (s1 ++ c :: s2) = (2 ^ 32 - 1, false)) := by
  refine ⟨?_, ?_, ?_, ?_⟩
  · intro address targetAddress shouldLink h2a h2t hfail hok
    simp only [generateBranchCodeLine]
    rw [if_neg (by omega), if_neg (by simp [hok]),
      if_neg (Nat.not_lt_zero _)]
  · intro s hs
    unfold parseUintHex32 at hs ⊢
    by_cases hl : s.length = 0
    · rw [if_pos hl]
      exact Or.inl rfl
    · rw [if_neg hl] at hs ⊢
      exact parseUintHex32Loop_fail s 0 hs
  · intro s1 s2 c hall hbound hc
    unfold parseUintHex32
    rw [if_neg (by simp)]
    rw [parseUintHex32Loop_append s1 (c :: s2) 0 hall hbound]
    simp [parseUintHex32Loop, hc]
  · intro s1 s2 c d hall hbound hc hover
    unfold parseUintHex32
    rw [if_neg (by simp)]
    rw [parseUintHex32Loop_append s1 (c :: s2) 0 hall hbound]
    simp only [parseUintHex32Loop, hc]
    rw [if_pos (by unfold hexStrVal at hover; omega)]

/-- Witness for `c9_amended` at concrete inputs: a syntax-failing base
address still yields a line; a failed parse value is 0 or the maximum; a
non-hex character reached in bounds gives 0; an overflow before a later
malformed character gives `2 ^ 32 - 1`. -/
theorem c9_amended_witness :
    generateBranchCodeLine (str "80GGGGGG") (str "80001234") false =
      .ok (str "04" ++ toUpperStr ((str "80GGGGGG").drop 2) ++ str " " ++ str "48" ++
        branchDiffStr
          (if false then
            (branchAddressDiff (parseUintHex32 ((str "80GGGGGG").drop 2)).1
              (parseUintHex32 ((str "80001234").drop 2)).1 + 1) % 2 ^ 64
          else
            branchAddressDiff (parseUintHex32 ((str "80GGGGGG").drop 2)).1
              (parseUintHex32 ((str "80001234").drop 2)).1)) ∧
    ((parseUintHex32 (str "GGGGGG")).1 = 0 ∨
      (parseUintHex32 (str "GGGGGG")).1 = 2 ^ 32 - 1) ∧
    parseUintHex32 (str "12" ++ 'Z' :: str "4") = (0, false) ∧
    parseUintHex32 (str "FFFFFFFF" ++ 'F' :: str "Z") = (2 ^ 32 - 1, false) :=
  ⟨c9_amended.1 (str "80GGGGGG") (str "80001234") false (by decide) (by decide)
      (by decide) (by decide),
    c9_amended.2.1 (str "GGGGGG") (by decide),
    c9_amended.2.2.1 (str "12") (str "4") 'Z' (by decide) (by decide) (by decide),
    c9_amended.2.2.2 (str "FFFFFFFF") (str "Z") 'F' 15 (by decide) (by decide)
      (by decide) (by decide)⟩

/-! ### Positional-notation lemmas for the `%06X` displacement field -/

/-- The fuel-driven printer agrees with the mathematical digit string when
the fuel bounds the number of digits. -/
theorem natHexStrAux_eq : ∀ (fuel n : Nat) (acc : Str), n < 16 ^ (fuel + 1) →
    natHexStrAux (fuel + 1) n acc = bigDigits n ++ acc := by
  intro fuel
  induction fuel with
  | zero =>
    intro n acc hn
    have hn16 : n < 16 := by simpa using hn
    have h0 : n / 16 = 0 := Nat.div_eq_of_lt hn16
    simp [natHexStrAux, h0, bigDigits, hn16, Nat.mod_eq_of_lt hn16]
  | succ fuel ih =>
    intro n acc hn
    by_cases h0 : n / 16 = 0
    · have hn16 : n < 16 := by
        have hmod : n % 16 < 16 := Nat.mod_lt _ (by omega)
        have := Nat.div_add_mod n 16
        omega
      simp [natHexStrAux, h0, bigDigits, hn16, Nat.mod_eq_of_lt hn16]
    · have hn16 : ¬ n < 16 := fun hc => h0 (Nat.div_eq_of_lt hc)
      have hdiv : n / 16 < 16 ^ (fuel + 1) := by
        rw [Nat.div_lt_iff_lt_mul (by omega)]
        calc n < 16 ^ (fuel + 1 + 1) := hn
          _ = 16 ^ (fuel + 1) * 16 := by rw [pow_succ]
      show (if n / 16 = 0 then hexDigitUpper (n % 16) :: acc
            else natHexStrAux (fuel + 1) (n / 16) (hexDigitUpper (n % 16) :: acc)) =
        bigDigits n ++ acc
      rw [if_neg h0, ih (n / 16) (hexDigitUpper (n % 16) :: acc) hdiv]
      conv_rhs => rw [bigDigits]
      rw [if_neg hn16, List.append_assoc]
      rfl

/-- `Sprintf %X` prints the mathematical digit string. -/
theorem sprintfHexUpper_eq (n : Nat) : sprintfHexUpper n = bigDigits n := by
  have hlt : n < 16 ^ (n + 1) := by
    calc n < 2 ^ n := Nat.lt_two_pow n
      _ ≤ 16 ^ n := Nat.pow_le_pow_left (by omega) n
      _ ≤ 16 ^ (n + 1) := Nat.pow_le_pow_right (by omega) (by omega)
  rw [sprintfHexUpper, natHexStrAux_eq n n [] hlt, List.append_nil]

/-- A fixed-width digit string has exactly the requested width. -/
theorem hexFixed_length : ∀ w n : Nat, (hexFixed w n).length = w := by
  intro w
  induction w with
  | zero => intro n; rfl
  | succ w ih => intro n; simp [hexFixed, ih]

/-- Splitting a fixed-width digit string into high and low parts. -/
theorem hexFixed_add (a : Nat) : ∀ (b n : Nat),
    hexFixed (a + b) n = hexFixed a (n / 16 ^ b) ++ hexFixed b n := by
  intro b
  induction b with
  | zero => intro n; simp [hexFixed]
  | succ b ih =>
    intro n
    rw [(by omega : a + (b + 1) = (a + b) + 1)]
    show hexFixed (a + b) (n / 16) ++ [hexDigitUpper (n % 16)] =
      hexFixed a (n / 16 ^ (b + 1)) ++
        (hexFixed b (n / 16) ++ [hexDigitUpper (n % 16)])
    rw [ih (n / 16), List.append_assoc, Nat.div_div_eq_div_mul, ← pow_succ']

/-- The digit string of `n` is its own fixed-width rendering. -/
theorem bigDigits_eq_hexFixed : ∀ n : Nat, bigDigits n = hexFixed (bigDigits n).length n := by
  intro n
  induction n using Nat.strong_induction_on with
  | _ n ih =>
    by_cases h : n < 16
    · rw [bigDigits, if_pos h]
      simp [hexFixed, Nat.mod_eq_of_lt h, Nat.div_eq_of_lt h]
    · rw [bigDigits, if_neg h]
      have ih2 := ih (n / 16) (Nat.div_lt_self (by omega) (by omega))
      simp only [List.length_append, List.length_singleton]
      simp only [hexFixed]
      nth_rewrite 1 [ih2]
      rfl

/-- A number is below the base power given by its digit count. -/
theorem bigDigits_lt : ∀ n : Nat, n < 16 ^ (bigDigits n).length := by
  intro n
  induction n using Nat.strong_induction_on with
  | _ n ih =>
    by_cases h : n < 16
    · rw [bigDigits, if_pos h]
      simpa using h
    · rw [bigDigits, if_neg h]
      have ih2 := ih (n / 16) (Nat.div_lt_self (by omega) (by omega))
      have hlt : n < 16 ^ (bigDigits (n / 16)).length * 16 :=
        (Nat.div_lt_iff_lt_mul (by omega)).mp ih2
      simpa [List.length_append, pow_succ] using hlt

/-- Fixed-width digits only depend on the value modulo `16 ^ w`. -/
theorem hexFixed_mod : ∀ (w n : Nat), hexFixed w (n % 16 ^ w) = hexFixed w n := by
  intro w
  induction w with
  | zero => intro n; rfl
  | succ w ih =>
    intro n
    show hexFixed w (n % 16 ^ (w + 1) / 16) ++ [hexDigitUpper (n % 16 ^ (w + 1) % 16)] =
      hexFixed w (n / 16) ++ [hexDigitUpper (n % 16)]
    have h1 : n % 16 ^ (w + 1) % 16 = n % 16 :=
      Nat.mod_mod_of_dvd n (dvd_pow_self 16 (Nat.succ_ne_zero w))
    have h2 : n % 16 ^ (w + 1) / 16 = n / 16 % 16 ^ w := by
      rw [pow_succ']
      exact Nat.mod_mul_right_div_self n 16 (16 ^ w)
    rw [h1, h2, ih (n / 16)]

/-- The fixed-width rendering of zero is all zero characters. -/
theorem hexFixed_zero : ∀ w : Nat, hexFixed w 0 = List.replicate w '0' := by
  intro w
  induction w with
  | zero => rfl
  | succ w ih =>
    show hexFixed w 0 ++ [hexDigitUpper 0] = _
    rw [ih, List.replicate_succ']
    rfl

/-- The final `w` characters of the zero-padded print of `n` are exactly its
`w` fixed-width digits. -/
theorem lastN_pad_bigDigits (w n : Nat) :
    lastN w (leftPad '0' w (bigDigits n)) = hexFixed w n := by
  by_cases h : (bigDigits n).length ≤ w
  · have hlen : (leftPad '0' w (bigDigits n)).length = w := by
      simp [leftPad]
      omega
    rw [lastN, hlen, Nat.sub_self, List.drop_zero]
    have hsplit : hexFixed w n =
        hexFixed (w - (bigDigits n).length) (n / 16 ^ (bigDigits n).length) ++
          hexFixed (bigDigits n).length n := by
      rw [← hexFixed_add]
      congr 1
      omega
    have hdiv : n / 16 ^ (bigDigits n).length = 0 := Nat.div_eq_of_lt (bigDigits_lt n)
    rw [hsplit, hdiv, hexFixed_zero, ← bigDigits_eq_hexFixed]
    rfl
  · push_neg at h
    have hpad : leftPad '0' w (bigDigits n) = bigDigits n := by
      simp [leftPad, (by omega : w - (bigDigits n).length = 0)]
    rw [hpad, lastN]
    have hsplit : bigDigits n =
        hexFixed ((bigDigits n).length - w) (n / 16 ^ w) ++ hexFixed w n := by
      conv_lhs => rw [bigDigits_eq_hexFixed n]
      rw [← hexFixed_add]
      congr 1
      omega
    nth_rewrite 2 [hsplit]
    rw [List.drop_left' (by rw [hexFixed_length])]

/-- Reading back a fixed-width digit string gives the value modulo the
width. -/
theorem hexVal_hexDigitUpper (d : Nat) (hd : d < 16) :
    (hexDigitVal (hexDigitUpper d)).getD 0 = d := by
  interval_cases d <;> decide

/-- Appending one character multiplies the read-back value by 16. -/
theorem hexStrVal_append_singleton (a : Str) (c : Char) :
    hexStrVal (a ++ [c]) = hexStrVal a * 16 + (hexDigitVal c).getD 0 := by
  simp [hexStrVal, List.foldl_append]

/-- Reading back the fixed-width digits of `n` yields `n % 16 ^ w`. -/
theorem hexStrVal_hexFixed : ∀ (w n : Nat), hexStrVal (hexFixed w n) = n % 16 ^ w := by
  intro w
  induction w with
  | zero => intro n; simp [hexStrVal, hexFixed, Nat.mod_one]
  | succ w ih =>
    intro n
    show hexStrVal (hexFixed w (n / 16) ++ [hexDigitUpper (n % 16)]) = _
    rw [hexStrVal_append_singleton, ih (n / 16),
      hexVal_hexDigitUpper _ (Nat.mod_lt _ (by omega))]
    rw [pow_succ', Nat.mod_mul]
    omega

/-- The displacement field of the branch encoder, read back as a number, is
the displacement modulo `2 ^ 24`. -/
theorem branchDiffStr_val (d : Nat) : hexStrVal (branchDiffStr d) = d % 2 ^ 24 := by
  rw [branchDiffStr, sprintfHexPad, sprintfHexUpper_eq, lastN_pad_bigDigits,
    hexStrVal_hexFixed]
  norm_num

/-- The branch encoder on any pair whose target parses: prefix `48` (the
negative test never fires) and the displacement field of the (possibly
link-incremented) uint64 difference. -/
theorem generateBranchCodeLine_ok (address targetAddress : Str) (shouldLink : Bool)
    (h2a : 2 ≤ address.length) (h2t : 2 ≤ targetAddress.length)
    (hok : (parseUintHex32 (targetAddress.drop 2)).2 = true) :
    generateBranchCodeLine address targetAddress shouldLink =
      .ok (str "04" ++ toUpperStr (address.drop 2) ++ str " " ++ str "48" ++
        branchDiffStr
          (if shouldLink then
            (branchAddressDiff (parseUintHex32 (address.drop 2)).1
              (parseUintHex32 (targetAddress.drop 2)).1 + 1) % 2 ^ 64
          else
            branchAddressDiff (parseUintHex32 (address.drop 2)).1
              (parseUintHex32 (targetAddress.drop 2)).1)) := by
  simp only [generateBranchCodeLine]
  rw [if_neg (by omega), if_neg (by simp [hok]), if_neg (Nat.not_lt_zero _)]

/-- The last `k` characters of a concatenation whose second part has length
`k` are that second part. -/
theorem lastN_append (a b : Str) (k : Nat) (hb : b.length = k) :
    lastN k (a ++ b) = b := by
  rw [lastN, List.length_append, hb,
    (by omega : a.length + k - k = a.length), List.drop_left]

/-- Claim C5, counterexample: at displacement FFFFFF the BranchAndLink field
wraps to 000000, which is not the Branch field plus 1 as plain numbers. -/
theorem c5_counterexample :
    generateBranchCodeLine (str "80000000") (str "80FFFFFF") false =
      .ok (str "04000000 48FFFFFF") ∧
    generateBranchCodeLine (str "80000000") (str "80FFFFFF") true =
      .ok (str "04000000 48000000") ∧
    hexStrVal (lastN 6 (str "04000000 48000000")) ≠
      hexStrVal (lastN 6 (str "04000000 48FFFFFF")) + 1 :=
  ⟨rfl, rfl, by decide⟩

/-- Claim C5, amended: for the same address pair the 24-bit displacement
field emitted by BranchAndLink equals the Branch field plus 1 modulo
`2 ^ 24`. -/
theorem c5_amended (address targetAddress : Str)
    (h2a : 2 ≤ address.length) (h2t : 2 ≤ targetAddress.length)
    (hok : (parseUintHex32 (targetAddress.drop 2)).2 = true) :
    ∃ lineB lineBL : Str,
      generateBranchCodeLine address targetAddress false = .ok lineB ∧
      generateBranchCodeLine address targetAddress true = .ok lineBL ∧
      hexStrVal (lastN 6 lineBL) = (hexStrVal (lastN 6 lineB) + 1) % 2 ^ 24 := by
  have hB := generateBranchCodeLine_ok address targetAddress false h2a h2t hok
  have hBL := generateBranchCodeLine_ok address targetAddress true h2a h2t hok
  refine ⟨_, _, hB, hBL, ?_⟩
  have hlen : ∀ d : Nat, (branchDiffStr d).length = 6 := by
    intro d
    rw [branchDiffStr, sprintfHexPad, sprintfHexUpper_eq, lastN_pad_bigDigits,
      hexFixed_length]
  rw [lastN_append _ _ 6 (hlen _), lastN_append _ _ 6 (hlen _)]
  rw [branchDiffStr_val, branchDiffStr_val]
  rw [if_pos rfl, if_neg (by simp)]
  have hdvd : (2 : Nat) ^ 24 ∣ 2 ^ 64 := pow_dvd_pow 2 (by omega)
  rw [Nat.mod_mod_of_dvd _ hdvd]
  conv_rhs => rw [Nat.add_mod]
  norm_num

/-- Witness for `c5_amended` at a concrete address pair. -/
theorem c5_amended_witness :
    ∃ lineB lineBL : Str,
      generateBranchCodeLine (str "80001000") (str "80002000") false = .ok lineB ∧
      generateBranchCodeLine (str "80001000") (str "80002000") true = .ok lineBL ∧
      hexStrVal (lastN 6 lineBL) = (hexStrVal (lastN 6 lineB) + 1) % 2 ^ 24 :=
  c5_amended (str "80001000") (str "80002000") (by decide) (by decide) (by decide)

/-- The per-file body of the folder loop agrees with the spec-side per-entry
processing on file entries. -/
theorem processAsmEntry_eq_spec (env : Env) (folder fname firstLine : Str) :
    processAsmEntry env (pathJoin folder fname) firstLine =
      processEntrySpec env folder (.file fname firstLine) := by
  simp only [processAsmEntry, processEntrySpec]
  by_cases h8 : firstLine.length < 8
  · rw [if_pos h8, if_neg (fun hc => by omega)]
  · rw [if_neg h8]
    cases hd : hexDecode (firstLine.drop (firstLine.length - 8)) with
    | none =>
      have hv : ¬ (8 ≤ firstLine.length ∧ isValidHexStr (lastN 8 firstLine) = true) := by
        rintro ⟨-, hc⟩
        rw [← hexDecode_isSome] at hc
        rw [lastN] at hc
        rw [hd] at hc
        simp at hc
      rw [if_neg hv]
    | some bs =>
      have hv : isValidHexStr (lastN 8 firstLine) = true := by
        rw [← hexDecode_isSome, lastN, hd]
        rfl
      rw [if_pos ⟨by omega, hv⟩]
      rfl

/-- The per-entry branch of the file loop agrees with the spec-side
per-entry processing (directories with the `.asm` extension included). -/
theorem filesLoop_entry_eq (env : Env) (folder : Str) (e : FsEntry) :
    ((match e with
      | .dir dname _ =>
        .error (.panicked (.injectionAddressError (pathJoin folder dname)))
      | .file fname firstLine =>
        processAsmEntry env (pathJoin folder fname) firstLine) :
      Except BuildErr (List Str)) = processEntrySpec env folder e := by
  cases e with
  | dir dname sub => rfl
  | file fname firstLine => exact processAsmEntry_eq_spec env folder fname firstLine

/-- The file loop of the folder routine is the flat map of the spec-side
per-entry processing over the `.asm`-named entries. -/
theorem filesLoop_eq (env : Env) (folder : Str) : ∀ entries : List FsEntry,
    filesLoop env folder entries =
      match (entries.filter
          (fun e => decide (fileExt (FsEntry.name e) = str ".asm"))).mapM
          (processEntrySpec env folder) with
      | .error e => .error e
      | .ok parts => .ok parts.flatten := by
  intro entries
  induction entries with
  | nil => rfl
  | cons e rest ih =>
    by_cases he : fileExt (FsEntry.name e) = str ".asm"
    · simp only [filesLoop]
      rw [if_neg (not_not_intro he), filesLoop_entry_eq, ih,
        List.filter_cons_of_pos (by simpa using he), List.mapM_cons]
      cases hpe : processEntrySpec env folder e <;>
        cases hm : (rest.filter
            (fun e => decide (fileExt (FsEntry.name e) = str ".asm"))).mapM
            (processEntrySpec env folder) <;>
        simp [Bind.bind, Except.bind, pure, Except.pure, hpe, hm]
    · simp only [filesLoop]
      rw [if_pos he, ih, List.filter_cons_of_neg (by simpa using he)]

/-- The directory loop of the folder routine is the flat map of the
recursive folder processing over the subdirectory entries. -/
theorem dirsLoop_eq (env : Env) (folder : Str) (isRecursive : Bool) :
    ∀ entries : List FsEntry,
    dirsLoop env folder isRecursive entries =
      match (entries.filter FsEntry.isDirE).mapM
          (fun e => generateInjectionFolderLines env (pathJoin folder (FsEntry.name e))
            isRecursive (FsEntry.children e)) with
      | .error e => .error e
      | .ok parts => .ok parts.flatten := by
  intro entries
  induction entries with
  | nil =>
    simp only [dirsLoop]
    rfl
  | cons e rest ih =>
    cases e with
    | file fname firstLine =>
      simp only [dirsLoop]
      rw [ih, List.filter_cons_of_neg (by simp [FsEntry.isDirE])]
    | dir dname sub =>
      simp only [dirsLoop]
      rw [ih, List.filter_cons_of_pos (by simp [FsEntry.isDirE]), List.mapM_cons]
      cases hg : generateInjectionFolderLines env (pathJoin folder dname) isRecursive sub <;>
        cases hm : (rest.filter FsEntry.isDirE).mapM
            (fun e => generateInjectionFolderLines env
              (pathJoin folder (FsEntry.name e)) isRecursive (FsEntry.children e)) <;>
        simp [Bind.bind, Except.bind, pure, Except.pure, hg, hm, FsEntry.name,
          FsEntry.children]

/-- Claim C7: the folder-injection routine equals its specification: every
`.asm`-named entry of the directory, in order, is processed by requiring the
last 8 characters of its first line to be a well-formed hex address (a
failure is a fatal error naming the offending file) and annotating the first
output line with the file path; when the recursive flag is set the
subdirectory results are appended after all files of the current directory,
depth-first. -/
theorem c7_folder (env : Env) (folder : Str) (isRecursive : Bool)
    (entries : List FsEntry) :
    generateInjectionFolderLines env folder isRecursive entries =
      folderLinesSpec env folder isRecursive entries := by
  unfold folderLinesSpec
  rw [generateInjectionFolderLines]
  rw [filesLoop_eq, dirsLoop_eq]
  cases hf : (entries.filter
      (fun e => decide (fileExt (FsEntry.name e) = str ".asm"))).mapM
      (processEntrySpec env folder) with
  | error e => rfl
  | ok fileParts =>
    cases isRecursive with
    | false => simp
    | true =>
      cases hd : (entries.filter FsEntry.isDirE).mapM
          (fun e => generateInjectionFolderLines env
            (pathJoin folder (FsEntry.name e)) true (FsEntry.children e)) with
      | error e => rfl
      | ok dirPartsL => rfl

end Gecko
